import Mathlib

/-!
Verification of the Data Quality Dashboard repository against its
natural-language specification.

The repository's frontend (React, under `src/frontend/src`) is present and is
embedded directly; the backend analysis engine (`backend/data_analyzer.py`) is
referenced by the README and the spec but its source is not part of the
provided tree, so the engine-side analyzers are modelled from the spec's
words, each such definition marked `Modelled from the spec:` in its doc
comment.

Numbers are modelled as rationals (JS numbers in this code base are exact
small decimals and integer counts; no floating-point rounding is relied on by
any property checked here), and JS `Math.floor` division on integers as
Lean's Euclidean division on `Int`, which agrees with floor division for the
positive literal divisors used.
-/

/-- Scalar cell value of the dashboard's tabular data: text, number, boolean
or null/absent, mirroring the value space the frontend receives as JSON and
the engine's Table cells (spec section 3). -/
inductive CellValue where
  | null
  | str (s : String)
  | num (q : ℚ)
  | bool (b : Bool)
deriving DecidableEq

/-- A record/row: a mapping from column name to scalar value, represented as
an association list (spec section 3: "a record is a mapping from column name
to a scalar value"). -/
abbrev Row := List (String × CellValue)

/-- Looks a column up in a row; a missing key behaves as JS property access
returning `undefined`, which the frontend treats like `null`. -/
def lookupVal (row : Row) (col : String) : CellValue :=
  match row.find? (fun p => p.1 == col) with
  | some p => p.2
  | none => CellValue.null

/-- Tests the JS condition `v === null || v === undefined` of the frontend. -/
def isNullVal : CellValue → Bool
  | .null => true
  | _ => false

/-! ## C1: severity thresholds (DatasetResults.jsx, getSeverityClass) -/

/-- Embeds `getSeverityClass` from `DatasetResults.jsx` lines 26-30: the
percentage-to-severity mapping. `badge-danger` renders the high severity,
`badge-warning` medium, `badge-info` low. -/
def getSeverityClass (percentage : ℚ) : String :=
  if percentage > 10 then "badge-danger"
  else if percentage > 5 then "badge-warning"
  else "badge-info"

/-- C1: severity is high (`badge-danger`) exactly when the percentage exceeds
10, medium (`badge-warning`) exactly when it is above 5 and at most 10, and
low (`badge-info`) exactly otherwise; in particular exactly 10.0 percent is
medium, 10.01 percent is high, and exactly 5.0 percent is low. -/
theorem severity_thresholds (p : ℚ) :
    (getSeverityClass p = "badge-danger" ↔ 10 < p) ∧
    (getSeverityClass p = "badge-warning" ↔ 5 < p ∧ p ≤ 10) ∧
    (getSeverityClass p = "badge-info" ↔ p ≤ 5) ∧
    getSeverityClass 10 = "badge-warning" ∧
    getSeverityClass (1001 / 100) = "badge-danger" ∧
    getSeverityClass 5 = "badge-info" := by
  have key : ∀ q : ℚ,
      (getSeverityClass q = "badge-danger" ↔ 10 < q) ∧
      (getSeverityClass q = "badge-warning" ↔ 5 < q ∧ q ≤ 10) ∧
      (getSeverityClass q = "badge-info" ↔ q ≤ 5) := by
    intro q
    unfold getSeverityClass
    split_ifs with h1 h2
    · exact ⟨⟨fun _ => h1, fun _ => rfl⟩,
        ⟨fun hc => absurd hc (by decide),
         fun hc => absurd h1 (not_lt.mpr hc.2)⟩,
        ⟨fun hc => absurd hc (by decide),
         fun hc => absurd h1 (not_lt.mpr (by linarith))⟩⟩
    · exact ⟨⟨fun hc => absurd hc (by decide), fun hc => absurd hc h1⟩,
        ⟨fun _ => ⟨h2, not_lt.mp h1⟩, fun _ => rfl⟩,
        ⟨fun hc => absurd hc (by decide),
         fun hc => absurd h2 (not_lt.mpr hc)⟩⟩
    · exact ⟨⟨fun hc => absurd hc (by decide), fun hc => absurd hc h1⟩,
        ⟨fun hc => absurd hc (by decide), fun hc => absurd hc.1 h2⟩,
        ⟨fun _ => not_lt.mp h2, fun _ => rfl⟩⟩
  obtain ⟨i1, i2, i3⟩ := key p
  refine ⟨i1, i2, i3, ?_, ?_, ?_⟩
  · exact (key 10).2.1.mpr ⟨by norm_num, le_refl 10⟩
  · exact (key (1001 / 100)).1.mpr (by norm_num)
  · exact (key 5).2.2.mpr (le_refl 5)

/-! ## C2: total issue count aggregation (DatasetResults.jsx, totalIssues) -/

/-- Missing-values block of an analysis result as consumed by the frontend. -/
structure MissingValuesBlock where
  total_missing_values : Nat
deriving DecidableEq

/-- Invalid-values block of an analysis result as consumed by the frontend. -/
structure InvalidValuesBlock where
  total_invalid_count : Nat
deriving DecidableEq

/-- Duplicates block of an analysis result as consumed by the frontend. -/
structure DuplicatesBlock where
  total_duplicates : Nat
deriving DecidableEq

/-- Logical-issues block of an analysis result as consumed by the frontend. -/
structure LogicalIssuesBlock where
  total_issues : Nat
deriving DecidableEq

/-- Outliers block of an analysis result as consumed by the frontend. -/
structure OutliersBlock where
  total_outlier_count : Nat
deriving DecidableEq

/-- The slice of the per-dataset analysis result that the `totalIssues`
computation in `DatasetResults.jsx` reads. `outliers` is optional, mirroring
the JS optional chaining `outliers?.total_outlier_count || 0` (older stored
reports have no outliers block). -/
structure DashboardData where
  missing_values : MissingValuesBlock
  invalid_values : InvalidValuesBlock
  duplicates : DuplicatesBlock
  logical_issues : LogicalIssuesBlock
  outliers : Option OutliersBlock
deriving DecidableEq

/-- Embeds the `totalIssues` computation of `DatasetResults.jsx` lines 19-24:
missing plus invalid plus duplicates plus logical plus the outlier count when
an outliers block is present (0 otherwise, via `|| 0`). -/
def totalIssues (d : DashboardData) : Nat :=
  d.missing_values.total_missing_values +
  d.invalid_values.total_invalid_count +
  d.duplicates.total_duplicates +
  d.logical_issues.total_issues +
  (match d.outliers with
   | some o => o.total_outlier_count
   | none => 0)

/-- States the spec's aggregation contract in its own words: the list of all
issue-category counts of a report (missing values, invalid values,
duplicates, logical issues, outliers), to be summed. -/
def issueCategoryCounts (d : DashboardData) : List Nat :=
  [d.missing_values.total_missing_values,
   d.invalid_values.total_invalid_count,
   d.duplicates.total_duplicates,
   d.logical_issues.total_issues,
   (d.outliers.map OutliersBlock.total_outlier_count).getD 0]

/-- C2: the total issue count computed by the report aggregation equals the
sum of all issue-category counts; with an outliers block present, every one
of the five categories contributes and none is omitted. -/
theorem totalIssues_eq_sum_categories (d : DashboardData) :
    totalIssues d = (issueCategoryCounts d).sum ∧
    (∀ o, d.outliers = some o →
      totalIssues d =
        d.missing_values.total_missing_values +
        d.invalid_values.total_invalid_count +
        d.duplicates.total_duplicates +
        d.logical_issues.total_issues +
        o.total_outlier_count) := by
  constructor
  · cases h : d.outliers <;>
      simp [totalIssues, issueCategoryCounts, h] <;> omega
  · intro o ho
    simp [totalIssues, ho]

/-- Witness for C2 at a concrete report value with all five categories
populated. -/
theorem totalIssues_eq_sum_categories_witness :
    totalIssues ⟨⟨4⟩, ⟨2⟩, ⟨5⟩, ⟨3⟩, some ⟨7⟩⟩ = 4 + 2 + 5 + 3 + 7 :=
  (totalIssues_eq_sum_categories ⟨⟨4⟩, ⟨2⟩, ⟨5⟩, ⟨3⟩, some ⟨7⟩⟩).2 ⟨7⟩ rfl

/-! ## C8: data-preview pagination invariant (DataPreview.jsx) -/

/-- Embeds `totalPages` of `DataPreview.jsx` line 46:
`Math.ceil(total_rows / rowsPerPage)` with `rowsPerPage = 10`; ceiling
division of naturals. -/
def totalPages (total_rows : Nat) : Nat :=
  (total_rows + 9) / 10

/-- Embeds `goToPage` of `DataPreview.jsx` lines 53-55:
`setCurrentPage(Math.max(1, Math.min(page, totalPages)))`. -/
def goToPage (total_rows : Nat) (page : Int) : Int :=
  max 1 (min page (totalPages total_rows : Int))

/-- Navigation actions the data-preview pagination UI can perform: the four
pagination buttons (first, previous, next, last) and the page reset performed
by `handleSort`. -/
inductive NavAction where
  | first
  | prev
  | next
  | last
  | sortReset
deriving DecidableEq

/-- One navigation step of `DataPreview.jsx`: the buttons call `goToPage` at
1, currentPage - 1, currentPage + 1 and totalPages respectively, and sorting
sets the current page to 1 directly. -/
def navStep (total_rows : Nat) (cur : Int) : NavAction → Int
  | .first => goToPage total_rows 1
  | .prev => goToPage total_rows (cur - 1)
  | .next => goToPage total_rows (cur + 1)
  | .last => goToPage total_rows ((totalPages total_rows : Int))
  | .sortReset => 1

/-- Runs a sequence of navigation actions from the initial state
`currentPage = 1` (the `useState(1)` initialiser). -/
def runNav (total_rows : Nat) (actions : List NavAction) : Int :=
  actions.foldl (navStep total_rows) 1

/-- The clamp returned by `goToPage` lies between 1 and the page count as
soon as there is at least one row. -/
theorem goToPage_bounds (tr : Nat) (page : Int) (h : 1 ≤ tr) :
    1 ≤ goToPage tr page ∧ goToPage tr page ≤ (totalPages tr : Int) := by
  have htp : 1 ≤ totalPages tr := by
    unfold totalPages
    omega
  unfold goToPage
  constructor
  · exact le_max_left 1 _
  · have : (1 : Int) ≤ (totalPages tr : Int) := by exact_mod_cast htp
    have hmin : min page (totalPages tr : Int) ≤ (totalPages tr : Int) :=
      min_le_right _ _
    exact max_le this hmin

/-- Every single navigation step preserves the pagination bounds. -/
theorem navStep_bounds (tr : Nat) (cur : Int) (a : NavAction) (h : 1 ≤ tr) :
    1 ≤ navStep tr cur a ∧ navStep tr cur a ≤ (totalPages tr : Int) := by
  cases a <;> simp only [navStep]
  case first => exact goToPage_bounds tr 1 h
  case prev => exact goToPage_bounds tr (cur - 1) h
  case next => exact goToPage_bounds tr (cur + 1) h
  case last => exact goToPage_bounds tr _ h
  case sortReset =>
    have htp : 1 ≤ totalPages tr := by
      unfold totalPages
      omega
    exact ⟨le_refl 1, by exact_mod_cast htp⟩

/-- Helper: folding navigation steps from any in-bounds page stays in
bounds. -/
theorem runNav_aux (tr : Nat) (h : 1 ≤ tr) (actions : List NavAction) :
    ∀ cur : Int, 1 ≤ cur → cur ≤ (totalPages tr : Int) →
      1 ≤ actions.foldl (navStep tr) cur ∧
      actions.foldl (navStep tr) cur ≤ (totalPages tr : Int) := by
  induction actions with
  | nil => intro cur h1 h2; exact ⟨h1, h2⟩
  | cons a rest ih =>
    intro cur h1 h2
    have hstep := navStep_bounds tr cur a h
    simpa using ih (navStep tr cur a) hstep.1 hstep.2

/-- C8: `goToPage` clamps the requested page into the valid range, so after
any sequence of navigation actions the current page always lies between 1 and
the total number of pages whenever there is at least one row. -/
theorem pagination_invariant (tr : Nat) (actions : List NavAction)
    (h : 1 ≤ tr) :
    (∀ page : Int, goToPage tr page =
      max 1 (min page (totalPages tr : Int))) ∧
    1 ≤ runNav tr actions ∧ runNav tr actions ≤ (totalPages tr : Int) := by
  have htp : 1 ≤ totalPages tr := by
    unfold totalPages
    omega
  have hstart : (1 : Int) ≤ (totalPages tr : Int) := by exact_mod_cast htp
  refine ⟨fun page => rfl, ?_⟩
  exact runNav_aux tr h actions 1 (le_refl 1) hstart

/-- Witness for C8: a 25-row preview (3 pages), navigating
next, next, next, last, prev lands on an in-range page. -/
theorem pagination_invariant_witness :
    (1 : Nat) ≤ 25 ∧
    1 ≤ runNav 25 [NavAction.next, NavAction.next, NavAction.next,
                   NavAction.last, NavAction.prev] ∧
    runNav 25 [NavAction.next, NavAction.next, NavAction.next,
               NavAction.last, NavAction.prev] ≤ (totalPages 25 : Int) :=
  ⟨by decide,
   (pagination_invariant 25 [NavAction.next, NavAction.next, NavAction.next,
                             NavAction.last, NavAction.prev] (by decide)).2⟩

/-! ## C10: formatRelativeTime (formatters.js lines 42-64) -/

/-- Shape of the string `formatRelativeTime` returns: not-available for a
missing timestamp, the four relative buckets with their computed number, or
the absolute `formatTimestamp` fallback (whose locale-dependent text is not
modelled further; only which branch is taken matters here). -/
inductive RelTimeResult where
  | notAvailable
  | justNow
  | minutesAgo (n : Int)
  | hoursAgo (n : Int)
  | daysAgo (n : Int)
  | absolute
deriving DecidableEq

/-- Embeds `formatRelativeTime` from `formatters.js` lines 42-64. The
timestamp is an epoch-milliseconds value (`none` for the falsy missing case,
line 43); `now` is the current epoch milliseconds; each `Math.floor`
division is Euclidean division on `Int`, which is floor division for the
positive divisors used. -/
def formatRelativeTime (timestamp : Option Int) (now : Int) : RelTimeResult :=
  match timestamp with
  | none => .notAvailable
  | some ts =>
    let diffMs := now - ts
    let diffSec := diffMs / 1000
    let diffMin := diffSec / 60
    let diffHour := diffMin / 60
    let diffDay := diffHour / 24
    if diffSec < 60 then .justNow
    else if diffMin < 60 then .minutesAgo diffMin
    else if diffHour < 24 then .hoursAgo diffHour
    else if diffDay < 7 then .daysAgo diffDay
    else .absolute

/-- C10: `formatRelativeTime` is total (defined for every input by
construction) and threshold-exact: `N/A` for a missing timestamp; `Just now`
strictly under 60 seconds; minutes strictly under 60 minutes; hours strictly
under 24 hours; days strictly under 7 days; the absolute-timestamp fallback
at 7 days or more. -/
theorem formatRelativeTime_thresholds (now ts : Int) :
    formatRelativeTime none now = .notAvailable ∧
    (now - ts < 60000 →
      formatRelativeTime (some ts) now = .justNow) ∧
    (60000 ≤ now - ts → now - ts < 3600000 →
      ∃ n, formatRelativeTime (some ts) now = .minutesAgo n ∧
        1 ≤ n ∧ n < 60) ∧
    (3600000 ≤ now - ts → now - ts < 86400000 →
      ∃ n, formatRelativeTime (some ts) now = .hoursAgo n ∧
        1 ≤ n ∧ n < 24) ∧
    (86400000 ≤ now - ts → now - ts < 604800000 →
      ∃ n, formatRelativeTime (some ts) now = .daysAgo n ∧
        1 ≤ n ∧ n < 7) ∧
    (604800000 ≤ now - ts →
      formatRelativeTime (some ts) now = .absolute) := by
  refine ⟨rfl, ?_, ?_, ?_, ?_, ?_⟩ <;>
    simp only [formatRelativeTime] <;> intros <;> split_ifs <;>
    first
      | rfl
      | omega
      | (exact ⟨_, rfl, by omega, by omega⟩)

/-- Witness for C10: concrete elapsed times in each bucket, evaluated on the
embedded function through the theorem. -/
theorem formatRelativeTime_thresholds_witness :
    formatRelativeTime (some 0) 59999 = .justNow ∧
    formatRelativeTime (some 0) 604800000 = .absolute :=
  ⟨((formatRelativeTime_thresholds 59999 0).2.1 (by decide)),
   ((formatRelativeTime_thresholds 604800000 0).2.2.2.2.2 (by decide))⟩

/-! ## C9: data-preview sorting places nulls last (DataPreview.jsx) -/

/-- Models the JS string conversion `String(val).toLowerCase()` used by the
comparator's fallback branch. The exact decimal rendering of numbers is
abstracted by Lean's rational rendering; no property proved here depends on
the relative order of non-null values. -/
def toLowerString : CellValue → String
  | .null => "null"
  | .str s => s.toLower
  | .num q => (toString q).toLower
  | .bool b => toString b

/-- Models `localeCompare` as the sign of lexicographic string comparison. -/
def strCompare (a b : String) : ℚ :=
  match compare a b with
  | .lt => -1
  | .eq => 0
  | .gt => 1

/-- Embeds the typed comparison of `DataPreview.jsx` lines 30-40: numeric
difference for two numbers, the boolean ordering, and otherwise lowercase
string comparison. -/
def compareVals (a b : CellValue) : ℚ :=
  match a, b with
  | .num x, .num y => x - y
  | .bool x, .bool y => if x == y then 0 else if x then 1 else -1
  | _, _ => strCompare (toLowerString a) (toLowerString b)

/-- Embeds the sort comparator of `DataPreview.jsx` lines 21-43: rows whose
value in the sort column is null or undefined compare after everything else
(returning 1 or -1 before the direction is applied), and only the typed
comparison is negated for descending order. `dir` is true for ascending. -/
def jsComparator (dir : Bool) (col : String) (a b : Row) : ℚ :=
  let aVal := lookupVal a col
  let bVal := lookupVal b col
  if isNullVal aVal then 1
  else if isNullVal bVal then -1
  else
    let c := compareVals aVal bVal
    if dir then c else -c

/-- Inserts an element into a list sorted by the boolean relation `le`;
building block of the stable comparison sort modelling `Array.prototype.sort`
(required stable since ES2019). -/
def insertLe {α : Type} (le : α → α → Bool) (x : α) : List α → List α
  | [] => [x]
  | y :: ys => if le x y then x :: y :: ys else y :: insertLe le x ys

/-- Stable insertion sort by the boolean relation `le`. -/
def sortByLe {α : Type} (le : α → α → Bool) (l : List α) : List α :=
  l.foldr (insertLe le) []

/-- Embeds `sortedData` of `DataPreview.jsx` lines 16-44 for the case where a
sort column is selected: `[...data].sort(comparator)`, with the sort modelled
as a stable comparison sort ordering `a` before `b` when the comparator is
nonpositive. -/
def sortedData (col : String) (dir : Bool) (data : List Row) : List Row :=
  sortByLe (fun a b => decide (jsComparator dir col a b ≤ 0)) data

/-- Decides whether a list of rows has every null-valued row (in column
`col`) after every non-null-valued row. -/
def nullsLastRows (col : String) : List Row → Bool
  | [] => true
  | r :: rs =>
    if isNullVal (lookupVal r col) then
      rs.all (fun r2 => isNullVal (lookupVal r2 col))
    else nullsLastRows col rs

/-- Helper: every element of an insertion comes from the inserted element or
the original list. -/
theorem mem_insertLe {α : Type} (le : α → α → Bool) (x : α) :
    ∀ (l : List α) (y : α), y ∈ insertLe le x l → y = x ∨ y ∈ l := by
  intro l
  induction l with
  | nil =>
    intro y hy
    simp only [insertLe, List.mem_singleton] at hy
    exact Or.inl hy
  | cons z zs ih =>
    intro y hy
    simp only [insertLe] at hy
    split_ifs at hy with h
    · rcases List.mem_cons.mp hy with h1 | h1
      · exact Or.inl h1
      · exact Or.inr h1
    · rcases List.mem_cons.mp hy with h1 | h1
      · exact Or.inr (List.mem_cons.mpr (Or.inl h1))
      · rcases ih y h1 with h2 | h2
        · exact Or.inl h2
        · exact Or.inr (List.mem_cons.mpr (Or.inr h2))

/-- Helper: a null-valued row never compares at or below anything (the
comparator returns 1), so `le` rejects it as a left argument. -/
theorem le_of_null_left (dir : Bool) (col : String) (a b : Row)
    (h : isNullVal (lookupVal a col) = true) :
    decide (jsComparator dir col a b ≤ 0) = false := by
  simp only [jsComparator, h, if_true]
  decide

/-- Helper: a non-null-valued row compares below a null-valued row (the
comparator returns -1), so `le` accepts it as a left argument. -/
theorem le_of_null_right (dir : Bool) (col : String) (a b : Row)
    (ha : isNullVal (lookupVal a col) = false)
    (hb : isNullVal (lookupVal b col) = true) :
    decide (jsComparator dir col a b ≤ 0) = true := by
  simp only [jsComparator, ha, hb, if_false, if_true]
  decide

/-- Helper: inserting any row into a nulls-last list keeps nulls last. -/
theorem nullsLastRows_insertLe (dir : Bool) (col : String) (x : Row) :
    ∀ l : List Row, nullsLastRows col l = true →
      nullsLastRows col
        (insertLe (fun a b => decide (jsComparator dir col a b ≤ 0)) x l)
        = true := by
  intro l
  induction l with
  | nil =>
    intro _
    by_cases hx : isNullVal (lookupVal x col) = true
    · simp [insertLe, nullsLastRows, hx]
    · simp [insertLe, nullsLastRows, hx]
  | cons y ys ih =>
    intro hl
    by_cases hx : isNullVal (lookupVal x col) = true
    · -- the inserted row is null-valued: it is never taken first
      simp only [insertLe, le_of_null_left dir col x y hx, if_false]
      by_cases hy : isNullVal (lookupVal y col) = true
      · -- everything after y is null, and x is null too
        simp only [nullsLastRows, hy, if_true] at hl ⊢
        rw [List.all_eq_true] at hl ⊢
        intro r hr
        rcases mem_insertLe _ x ys r hr with h1 | h1
        · rw [h1]; exact hx
        · exact hl r h1
      · simp only [nullsLastRows, hy, if_false] at hl ⊢
        exact ih hl
    · -- the inserted row is non-null-valued
      replace hx : isNullVal (lookupVal x col) = false := by
        simpa using hx
      by_cases hy : isNullVal (lookupVal y col) = true
      · -- x goes before the null head
        simp only [insertLe, le_of_null_right dir col x y hx hy, if_true]
        have hstep : nullsLastRows col (x :: y :: ys) =
            nullsLastRows col (y :: ys) := by
          simp [nullsLastRows, hx]
        rw [hstep]
        exact hl
      · simp only [insertLe]
        split_ifs with h
        · simp only [nullsLastRows, hx, if_false]
          exact hl
        · simp only [nullsLastRows, hy, if_false] at hl ⊢
          exact ih hl

/-- C9: whenever a sort column is selected, the data-preview sort orders
every row whose value in that column is null or undefined after every row
with a non-null value there, for both ascending and descending direction. -/
theorem sortedData_nulls_last (col : String) (dir : Bool)
    (data : List Row) :
    nullsLastRows col (sortedData col dir data) = true := by
  unfold sortedData sortByLe
  induction data with
  | nil => rfl
  | cons r rs ih =>
    simp only [List.foldr_cons]
    exact nullsLastRows_insertLe dir col r _ ih

/-! ## C6: duplicate detector accounting

The duplicate detector lives in the backend engine, whose source is not part
of the provided tree; it is modelled from spec section 4.4. -/

/-- Counts the occurrences of a key in a list of keys. -/
def keyCount {α : Type} [DecidableEq α] (k : α) (l : List α) : Nat :=
  (l.filter (fun x => decide (x = k))).length

/-- Modelled from the spec: the distinct comparison keys of a run, in
first-occurrence order ("groups ... ordered by first-occurrence order within
the source table", spec section 4.4). -/
def distinctKeys {α : Type} [DecidableEq α] : List α → List α
  | [] => []
  | k :: rest => k :: distinctKeys (rest.filter (fun x => decide (x ≠ k)))
termination_by l => l.length
decreasing_by
  simp only [List.length_cons]
  exact Nat.lt_succ_of_le (List.length_filter_le _ _)

/-- Modelled from the spec: the group of a key is the list of record indices
carrying that key ("Records are grouped by key", spec section 4.4). -/
def groupFor {α : Type} [DecidableEq α] (ks : List α) (k : α) : List Nat :=
  ((ks.enum.filter (fun p => decide (p.2 = k))).map Prod.fst)

/-- Modelled from the spec: the duplicate groups are the key groups with at
least two records ("any group with ≥2 records is a duplicate group", spec
section 4.4). -/
def dupGroupsOfKeys {α : Type} [DecidableEq α] (ks : List α) :
    List (List Nat) :=
  ((distinctKeys ks).map (groupFor ks)).filter (fun g => decide (2 ≤ g.length))

/-- Modelled from the spec: total duplicates counts the "extra" copies, not
counting the first occurrence of each key (spec section 4.4): every later
occurrence of the head key is extra, and the remaining extras are counted
among the keys different from it. -/
def totalDupKeys {α : Type} [DecidableEq α] : List α → Nat
  | [] => 0
  | k :: rest => keyCount k rest + totalDupKeys (rest.filter (fun x => decide (x ≠ k)))
termination_by l => l.length
decreasing_by
  simp only [List.length_cons]
  exact Nat.lt_succ_of_le (List.length_filter_le _ _)

/-- Helper: unfolding a key count over a cons cell. -/
theorem keyCount_cons {α : Type} [DecidableEq α] (x a : α) (l : List α) :
    keyCount x (a :: l) = keyCount x l + (if a = x then 1 else 0) := by
  simp only [keyCount, List.filter_cons]
  by_cases h : a = x
  · simp [h]
  · simp [h]

/-- Helper: counting a key different from the removed one is unaffected by
removing all copies of the latter. -/
theorem keyCount_filter_ne {α : Type} [DecidableEq α] (x k : α) (h : x ≠ k) :
    ∀ l : List α,
      keyCount x (l.filter (fun y => decide (y ≠ k))) = keyCount x l := by
  intro l
  induction l with
  | nil => rfl
  | cons a as ih =>
    by_cases hak : a = k
    · subst hak
      have hax : a ≠ x := fun hh => h hh.symm
      simp only [List.filter_cons]
      rw [if_neg (by simp)]
      rw [ih, keyCount_cons, if_neg hax]
      omega
    · simp only [List.filter_cons]
      rw [if_pos (by simp [hak])]
      rw [keyCount_cons, keyCount_cons, ih]

/-- Helper: the index count of a key in an indexed key list equals its key
count, independently of the starting index. -/
theorem enumFrom_filter_len {α : Type} [DecidableEq α] (k : α) :
    ∀ (l : List α) (i : Nat),
      ((List.enumFrom i l).filter (fun p => decide (p.2 = k))).length
        = keyCount k l := by
  intro l
  induction l with
  | nil => intro i; rfl
  | cons a as ih =>
    intro i
    simp only [List.enumFrom, List.filter_cons]
    by_cases h : a = k
    · rw [if_pos (by simpa using h)]
      rw [keyCount_cons, if_pos h, List.length_cons, ih (i + 1)]
    · rw [if_neg (by simpa using h)]
      rw [keyCount_cons, if_neg h, ih (i + 1)]
      omega

/-- Helper: the size of a key's index group is the key's occurrence count. -/
theorem groupFor_length {α : Type} [DecidableEq α] (ks : List α) (k : α) :
    (groupFor ks k).length = keyCount k ks := by
  unfold groupFor
  rw [List.length_map]
  exact enumFrom_filter_len k ks 0

/-- Helper: distinct keys come from the original key list. -/
theorem mem_distinctKeys {α : Type} [DecidableEq α] :
    ∀ (l : List α) (x : α), x ∈ distinctKeys l → x ∈ l := by
  intro l
  induction l using distinctKeys.induct with
  | case1 => intro x hx; simp [distinctKeys] at hx
  | case2 k rest ih =>
    intro x hx
    simp only [distinctKeys] at hx
    rcases List.mem_cons.mp hx with h | h
    · exact h ▸ List.mem_cons_self _ _
    · have := ih x h
      exact List.mem_cons.mpr (Or.inr (List.mem_filter.mp this).1)

/-- Helper: the distinct-key list has no repetition. -/
theorem nodup_distinctKeys {α : Type} [DecidableEq α] :
    ∀ l : List α, (distinctKeys l).Nodup := by
  intro l
  induction l using distinctKeys.induct with
  | case1 => simp [distinctKeys]
  | case2 k rest ih =>
    simp only [distinctKeys]
    refine List.Nodup.cons ?_ ih
    intro hk
    have := (List.mem_filter.mp (mem_distinctKeys _ _ hk)).2
    simp at this

/-- Helper: a filtered map-sum loses nothing when the dropped terms are
zero. -/
theorem sum_map_filter_of_zero {α : Type} (f : α → Nat) (p : α → Bool) :
    ∀ l : List α, (∀ x ∈ l, p x = false → f x = 0) →
      ((l.filter p).map f).sum = (l.map f).sum := by
  intro l
  induction l with
  | nil => intro _; rfl
  | cons a as ih =>
    intro h
    simp only [List.filter_cons, List.map_cons, List.sum_cons]
    split_ifs with hpa
    · simp only [List.map_cons, List.sum_cons]
      rw [ih (fun x hx => h x (List.mem_cons.mpr (Or.inr hx)))]
    · rw [h a (List.mem_cons_self _ _) (by simpa using hpa)]
      rw [ih (fun x hx => h x (List.mem_cons.mpr (Or.inr hx)))]
      omega

/-- Helper: summing the extra copies over all distinct keys counts exactly
the non-first occurrences. -/
theorem sum_distinct_extras {α : Type} [DecidableEq α] :
    ∀ ks : List α,
      ((distinctKeys ks).map (fun k => keyCount k ks - 1)).sum
        = totalDupKeys ks := by
  intro ks
  induction ks using distinctKeys.induct with
  | case1 => simp [distinctKeys, totalDupKeys]
  | case2 k rest ih =>
    simp only [distinctKeys, totalDupKeys]
    simp only [List.map_cons, List.sum_cons]
    have hhead : keyCount k (k :: rest) - 1 = keyCount k rest := by
      rw [keyCount_cons, if_pos rfl]
      omega
    have htail :
        (distinctKeys (rest.filter (fun x => decide (x ≠ k)))).map
            (fun x => keyCount x (k :: rest) - 1)
          = (distinctKeys (rest.filter (fun x => decide (x ≠ k)))).map
            (fun x => keyCount x (rest.filter (fun y => decide (y ≠ k))) - 1) := by
      apply List.map_congr_left
      intro a ha
      have hmem := mem_distinctKeys _ _ ha
      have hane : a ≠ k := by
        have := (List.mem_filter.mp hmem).2
        simpa using this
      rw [keyCount_cons, if_neg (fun hh => hane hh.symm),
        keyCount_filter_ne a k hane]
      omega
    rw [hhead, htail, ih]

/-- Helper: sums of extra copies agree between the reported duplicate groups
(size at least two) and all distinct keys, because singleton keys contribute
zero. -/
theorem dupGroups_sum {α : Type} [DecidableEq α] (ks : List α) :
    ((dupGroupsOfKeys ks).map (fun g => g.length - 1)).sum
      = ((distinctKeys ks).map (fun k => keyCount k ks - 1)).sum := by
  unfold dupGroupsOfKeys
  rw [List.filter_map, List.map_map]
  rw [sum_map_filter_of_zero]
  · apply congrArg
    apply List.map_congr_left
    intro a _
    simp only [Function.comp_apply, groupFor_length]
  · intro x _ hfalse
    simp only [Function.comp_apply, decide_eq_false_iff_not, not_le] at hfalse
    simp only [Function.comp_apply]
    have := groupFor_length ks x
    omega

/-- Helper: first components in an indexed list are at least the start
index. -/
theorem enumFrom_fst_le {α : Type} :
    ∀ (l : List α) (m : Nat) (p : Nat × α), p ∈ List.enumFrom m l → m ≤ p.1 := by
  intro l
  induction l with
  | nil => intro m p hp; simp [List.enumFrom] at hp
  | cons a as ih =>
    intro m p hp
    simp only [List.enumFrom, List.mem_cons] at hp
    rcases hp with hp | hp
    · rw [hp]
    · exact Nat.le_of_succ_le (ih (m + 1) p hp)

/-- Helper: each index carries a unique value in an indexed list. -/
theorem enumFrom_uniq {α : Type} :
    ∀ (l : List α) (m i : Nat) (v w : α),
      (i, v) ∈ List.enumFrom m l → (i, w) ∈ List.enumFrom m l → v = w := by
  intro l
  induction l with
  | nil => intro m i v w hv _; simp [List.enumFrom] at hv
  | cons a as ih =>
    intro m i v w hv hw
    simp only [List.enumFrom, List.mem_cons] at hv hw
    rcases hv with hv | hv <;> rcases hw with hw | hw
    · have h1 : v = a := (Prod.mk.injEq _ _ _ _).mp hv |>.2
      have h2 : w = a := (Prod.mk.injEq _ _ _ _).mp hw |>.2
      rw [h1, h2]
    · have h1 : i = m := (Prod.mk.injEq _ _ _ _).mp hv |>.1
      have := enumFrom_fst_le as (m + 1) (i, w) hw
      omega
    · have h1 : i = m := (Prod.mk.injEq _ _ _ _).mp hw |>.1
      have := enumFrom_fst_le as (m + 1) (i, v) hv
      omega
    · exact ih (m + 1) i v w hv hw

/-- Helper: membership in a key's group pins the key at that index. -/
theorem mem_groupFor {α : Type} [DecidableEq α] (ks : List α) (k : α)
    (i : Nat) (h : i ∈ groupFor ks k) : (i, k) ∈ ks.enum := by
  unfold groupFor at h
  rcases List.mem_map.mp h with ⟨p, hp, hfst⟩
  have hmem := List.mem_filter.mp hp
  have h2 : p.2 = k := by
    have := hmem.2
    simpa using this
  have hpik : p = (i, k) := by
    cases p
    simp only [Prod.mk.injEq]
    exact ⟨hfst, h2⟩
  exact hpik ▸ hmem.1

/-- Helper: the groups of two different keys share no record index. -/
theorem groupFor_disjoint {α : Type} [DecidableEq α] (ks : List α)
    (k1 k2 : α) (hne : k1 ≠ k2) :
    ∀ i, i ∈ groupFor ks k1 → i ∉ groupFor ks k2 := by
  intro i h1 h2
  exact hne (enumFrom_uniq ks 0 i k1 k2 (mem_groupFor ks k1 i h1)
    (mem_groupFor ks k2 i h2))

/-- Helper: the reported duplicate groups are pairwise disjoint on record
indices. -/
theorem dupGroups_pairwise {α : Type} [DecidableEq α] (ks : List α) :
    (dupGroupsOfKeys ks).Pairwise (fun g1 g2 => ∀ i, i ∈ g1 → i ∉ g2) := by
  unfold dupGroupsOfKeys
  apply List.Pairwise.filter
  apply List.Pairwise.map (groupFor ks)
    (fun a b hab => groupFor_disjoint ks a b hab)
  exact nodup_distinctKeys _

/-- The engine's input Table (spec section 3): ordered column names plus
ordered records, each record a mapping from column name to scalar value. -/
structure Table where
  columns : List String
  records : List Row
deriving DecidableEq

/-- Modelled from the spec: normalization of one cell for the comparison key
("non-excluded values are normalized (trim whitespace, case-fold text)",
spec section 4.4); null/absent cells stay distinguishable from text. -/
def normalizeCell : CellValue → Option String
  | .null => none
  | .str s => some (s.trim.toLower)
  | .num q => some (toString q)
  | .bool b => some (toString b)

/-- Modelled from the spec: a record's comparison key combines its normalized
non-excluded values deterministically (spec section 4.4: "all columns except
a configurable exclusion set"). -/
def recordKey (excluded : List String) (cols : List String) (r : Row) :
    List (Option String) :=
  (cols.filter (fun c => !(excluded.contains c))).map
    (fun c => normalizeCell (lookupVal r c))

/-- Comparison keys of all records of a table, in record order. -/
def keysOf (excluded : List String) (t : Table) : List (List (Option String)) :=
  t.records.map (recordKey excluded t.columns)

/-- Modelled from the spec: the duplicate groups of a table, as lists of
record indices, grouped by comparison key, groups of at least two records
only (spec section 4.4). -/
def duplicateGroups (excluded : List String) (t : Table) : List (List Nat) :=
  dupGroupsOfKeys (keysOf excluded t)

/-- Modelled from the spec: the reported total duplicate count, the extra
copies beyond each first occurrence (spec section 4.4). -/
def totalDuplicates (excluded : List String) (t : Table) : Nat :=
  totalDupKeys (keysOf excluded t)

/-- C6: for every input table, the reported total_duplicates equals the sum
of (group size - 1) over all duplicate groups, and no record appears in two
different duplicate groups. -/
theorem duplicate_accounting (excluded : List String) (t : Table) :
    totalDuplicates excluded t =
      ((duplicateGroups excluded t).map (fun g => g.length - 1)).sum ∧
    (duplicateGroups excluded t).Pairwise
      (fun g1 g2 => ∀ i, i ∈ g1 → i ∉ g2) := by
  constructor
  · unfold totalDuplicates duplicateGroups
    rw [dupGroups_sum, sum_distinct_extras]
  · exact dupGroups_pairwise _

/-! ## Engine model: outlier detector, missing values, report (spec 4.2, 4.6, 4.8)

The backend engine source is not part of the provided tree; the definitions
below are modelled from the spec. -/

/-- Modelled from the spec: linear-interpolation percentile over an already
sorted list of values (spec section 4.6: "compute Q1 and Q3 via
linear-interpolation percentile (25th/75th) over the sorted non-null
values"): position p/100 * (n-1), then interpolate linearly between the two
neighbouring sorted values. -/
def percentile (sortedVals : List ℚ) (p : ℚ) : ℚ :=
  match sortedVals with
  | [] => 0
  | _ :: _ =>
    let n := sortedVals.length
    let pos := p / 100 * ((n : ℚ) - 1)
    let lower := ⌊pos⌋
    let frac := pos - (lower : ℚ)
    let lv := sortedVals.getD lower.toNat 0
    let uv := sortedVals.getD (lower.toNat + 1) lv
    lv + frac * (uv - lv)

/-- The numeric (non-null, parsed) values of a column, in record order. -/
def numericValues (t : Table) (c : String) : List ℚ :=
  t.records.filterMap (fun r =>
    match lookupVal r c with
    | .num q => some q
    | _ => none)

/-- OutlierPattern emitted per numeric column (spec section 3): quartiles,
IQR, bounds, outlier count, sample outlier values and sample full rows. -/
structure OutlierPattern where
  column : String
  Q1 : ℚ
  Q3 : ℚ
  IQR : ℚ
  lower_bound : ℚ
  upper_bound : ℚ
  count : Nat
  outlier_values : List ℚ
  outlier_rows : List Row
deriving DecidableEq

/-- Modelled from the spec: the IQR outlier detector for one column (spec
section 4.6): requires at least 4 non-null numeric values, Q1/Q3 by
linear-interpolation percentile over the sorted values, IQR = Q3 - Q1,
bounds Q1 - 1.5 IQR and Q3 + 1.5 IQR, values strictly outside the bounds are
outliers; zero-IQR columns are skipped; up to 10 example outlier values and
up to 10 full outlier rows are retained. -/
def outlierPatternFor (t : Table) (c : String) : Option OutlierPattern :=
  let vals := numericValues t c
  if vals.length < 4 then none
  else
    let sortedVals := sortByLe (fun a b => decide (a ≤ b)) vals
    let q1 := percentile sortedVals 25
    let q3 := percentile sortedVals 75
    let iqr := q3 - q1
    if iqr = 0 then none
    else
      let lb := q1 - 3 / 2 * iqr
      let ub := q3 + 3 / 2 * iqr
      let outs := vals.filter (fun v => decide (v < lb) || decide (ub < v))
      let outRows := t.records.filter (fun r =>
        match lookupVal r c with
        | .num q => decide (q < lb) || decide (ub < q)
        | _ => false)
      some { column := c, Q1 := q1, Q3 := q3, IQR := iqr,
             lower_bound := lb, upper_bound := ub,
             count := outs.length,
             outlier_values := outs.take 10,
             outlier_rows := outRows.take 10 }

/-- Missing-value entry for one column (spec section 4.2). -/
structure MissingColumnEntry where
  column : String
  missing_count : Nat
deriving DecidableEq

/-- Missing-value analyzer output (spec section 4.2). -/
structure MissingSummary where
  total_missing_values : Nat
  columns_with_missing : List MissingColumnEntry
deriving DecidableEq

/-- Number of missing (null or absent) cells of one column. -/
def missingCount (t : Table) (c : String) : Nat :=
  (t.records.filter (fun r => isNullVal (lookupVal r c))).length

/-- Modelled from the spec: the missing value detector (spec section 4.2),
emitting an entry for each column with missing_count > 0. -/
def missingSummary (t : Table) : MissingSummary :=
  { total_missing_values := (t.columns.map (missingCount t)).sum
    columns_with_missing :=
      (t.columns.filter (fun c => decide (0 < missingCount t c))).map
        (fun c => { column := c, missing_count := missingCount t c }) }

/-- Error taxonomy of the engine (spec section 7): the only fatal error is
the empty dataset. -/
inductive EngineError where
  | emptyDataset
deriving DecidableEq

/-- AnalysisReport (spec section 3), restricted to the components the
verified claims reference: totals, capped data preview, missing values,
duplicate detection and outlier detection. The validator, consistency
checker and statistical summarizer add further fields but no claim below
depends on them. -/
structure AnalysisReport where
  dataset_name : String
  total_records : Nat
  total_columns : Nat
  data_preview : List Row
  missing : MissingSummary
  duplicate_groups : List (List Nat)
  total_duplicates : Nat
  outlier_patterns : List OutlierPattern
deriving DecidableEq

/-- Modelled from the spec: the analysis engine (spec sections 4 and 7). It
is a pure function of the input Table and the caller-supplied configuration
(here the duplicate-exclusion set); it raises EmptyDatasetError exactly when
the table has zero columns or zero records, an error that carries no partial
report, and otherwise composes the analyzer outputs plus the first-100-rows
data preview into one report value. -/
def analyzeTable (name : String) (excluded : List String) (t : Table) :
    Except EngineError AnalysisReport :=
  if t.columns.isEmpty || t.records.isEmpty then
    .error .emptyDataset
  else
    .ok { dataset_name := name
          total_records := t.records.length
          total_columns := t.columns.length
          data_preview := t.records.take 100
          missing := missingSummary t
          duplicate_groups := duplicateGroups excluded t
          total_duplicates := totalDuplicates excluded t
          outlier_patterns := t.columns.filterMap (outlierPatternFor t) }

/-! ## C3: IQR worked example (spec sections 4.6 and 8) -/

/-- The spec's worked example as a table: one column with the values
[1,2,3,4,5,6,100]. -/
def tc3 : Table :=
  { columns := ["v"]
    records := [[("v", CellValue.num 1)], [("v", CellValue.num 2)],
                [("v", CellValue.num 3)], [("v", CellValue.num 4)],
                [("v", CellValue.num 5)], [("v", CellValue.num 6)],
                [("v", CellValue.num 100)]] }

/-- Helper: the 25th percentile of the worked-example column. -/
theorem percentile25_tc3 :
    percentile [1, 2, 3, 4, 5, 6, 100] 25 = 5 / 2 := by
  simp only [percentile]
  have h1 : (25 : ℚ) / 100 *
      ((((List.length [(1 : ℚ), 2, 3, 4, 5, 6, 100] : Nat) : ℚ)) - 1)
        = 3 / 2 := by norm_num
  rw [h1]
  have h2 : ⌊(3 / 2 : ℚ)⌋ = 1 := by
    rw [Int.floor_eq_iff]
    norm_num
  rw [h2]
  norm_num

/-- Helper: the 75th percentile of the worked-example column. -/
theorem percentile75_tc3 :
    percentile [1, 2, 3, 4, 5, 6, 100] 75 = 11 / 2 := by
  simp only [percentile]
  have h1 : (75 : ℚ) / 100 *
      ((((List.length [(1 : ℚ), 2, 3, 4, 5, 6, 100] : Nat) : ℚ)) - 1)
        = 9 / 2 := by norm_num
  rw [h1]
  have h2 : ⌊(9 / 2 : ℚ)⌋ = 4 := by
    rw [Int.floor_eq_iff]
    norm_num
  rw [h2, show Int.toNat 4 = 4 from rfl]
  norm_num

/-- Helper: full evaluation of the outlier detector on the worked-example
column [1,2,3,4,5,6,100]. -/
theorem outlierPatternFor_tc3_eval :
    outlierPatternFor tc3 "v" = some
      { column := "v", Q1 := 5 / 2, Q3 := 11 / 2, IQR := 3,
        lower_bound := -2, upper_bound := 10, count := 1,
        outlier_values := [100],
        outlier_rows := [[("v", CellValue.num 100)]] } := by
  have hvals : numericValues tc3 "v" = [1, 2, 3, 4, 5, 6, 100] := rfl
  have hsort : sortByLe (fun a b => decide (a ≤ b))
      ([1, 2, 3, 4, 5, 6, 100] : List ℚ) = [1, 2, 3, 4, 5, 6, 100] := rfl
  have hiqr : (11 : ℚ) / 2 - 5 / 2 = 3 := by norm_num
  have hlb : (5 : ℚ) / 2 - 3 / 2 * 3 = -2 := by norm_num
  have hub : (11 : ℚ) / 2 + 3 / 2 * 3 = 10 := by norm_num
  simp only [outlierPatternFor, hvals, hsort, percentile25_tc3,
    percentile75_tc3, hiqr, hlb, hub]
  rfl

/-- C3 counterexample: with Q1 and Q3 computed by linear-interpolation
25th/75th percentile as the claim itself prescribes, the column
[1,2,3,4,5,6,100] does not yield Q1=2, Q3=5 and bounds [-2.5, 9.5]: the
position 0.25*(7-1)=1.5 interpolates halfway between 2 and 3, giving
Q1=2.5. -/
theorem iqr_example_counterexample :
    ¬ (Option.map OutlierPattern.Q1 (outlierPatternFor tc3 "v") = some 2 ∧
       Option.map OutlierPattern.Q3 (outlierPatternFor tc3 "v") = some 5 ∧
       Option.map OutlierPattern.lower_bound (outlierPatternFor tc3 "v")
         = some (-5 / 2) ∧
       Option.map OutlierPattern.upper_bound (outlierPatternFor tc3 "v")
         = some (19 / 2)) := by
  intro h
  have h1 := h.1
  rw [outlierPatternFor_tc3_eval] at h1
  rw [Option.map_some'] at h1
  have h2 : (5 / 2 : ℚ) = 2 := Option.some.inj h1
  norm_num at h2

/-- C3 amended: the column [1,2,3,4,5,6,100] under linear-interpolation
25th/75th percentiles yields Q1=2.5, Q3=5.5, IQR=3, bounds [-2, 10], and
value 100 as the sole outlier (count=1). -/
theorem iqr_example_amended :
    outlierPatternFor tc3 "v" = some
      { column := "v", Q1 := 5 / 2, Q3 := 11 / 2, IQR := 3,
        lower_bound := -2, upper_bound := 10, count := 1,
        outlier_values := [100],
        outlier_rows := [[("v", CellValue.num 100)]] } :=
  outlierPatternFor_tc3_eval

/-! ## C7: sample-row retention caps (spec 4.6/5, DatasetResults.jsx) -/

/-- Embeds the outlier-rows rendering of `DatasetResults.jsx` line 373:
`item.outlier_rows.slice(0, 10)` — the frontend displays at most the first
10 outlier rows regardless of how many were retained. -/
def renderedOutlierRows (rows : List Row) : List Row :=
  rows.take 10

/-- Embeds the outlier-values rendering of `DatasetResults.jsx` lines
347-356: `item.outlier_values.join(', ')` displays exactly the retained
example values. -/
def renderedOutlierValues (vals : List ℚ) : List ℚ :=
  vals

/-- C7: every emitted OutlierPattern retains at most 10 example outlier
values and at most 10 full outlier rows, and the frontend displays at most
10 of each: the displayed values are the (capped) retained ones and the
displayed rows are additionally sliced to 10. -/
theorem outlier_sample_caps (t : Table) (c : String) (pat : OutlierPattern)
    (h : outlierPatternFor t c = some pat) :
    pat.outlier_values.length ≤ 10 ∧
    pat.outlier_rows.length ≤ 10 ∧
    (renderedOutlierValues pat.outlier_values).length ≤ 10 ∧
    (renderedOutlierRows pat.outlier_rows).length ≤ 10 := by
  simp only [outlierPatternFor] at h
  split_ifs at h
  obtain rfl := Option.some.inj h
  exact ⟨List.length_take_le _ _, List.length_take_le _ _,
    List.length_take_le _ _, List.length_take_le _ _⟩

/-- Witness for C7 at the concrete worked-example column. -/
theorem outlier_sample_caps_witness :
    ([(100 : ℚ)] : List ℚ).length ≤ 10 ∧
    ([[(("v" : String), CellValue.num 100)]] : List Row).length ≤ 10 ∧
    (renderedOutlierValues [(100 : ℚ)]).length ≤ 10 ∧
    (renderedOutlierRows [[(("v" : String), CellValue.num 100)]]).length
      ≤ 10 :=
  outlier_sample_caps tc3 "v"
    { column := "v", Q1 := 5 / 2, Q3 := 11 / 2, IQR := 3,
      lower_bound := -2, upper_bound := 10, count := 1,
      outlier_values := [100],
      outlier_rows := [[("v", CellValue.num 100)]] }
    outlierPatternFor_tc3_eval

/-! ## C4: determinism of the engine (spec 3 and 8) -/

/-- C4: for any fixed Table (and fixed caller-supplied configuration),
repeated invocations of the engine yield identical AnalysisReport values:
the engine model is a pure function of its input, with no hidden state
parameter, matching the spec's statelessness mandate. -/
theorem engine_determinism (name : String) (excluded : List String)
    (t : Table) (r1 r2 : Except EngineError AnalysisReport)
    (h1 : analyzeTable name excluded t = r1)
    (h2 : analyzeTable name excluded t = r2) : r1 = r2 :=
  h1.symm.trans h2

/-- Witness for C4: two invocations on the worked-example table agree. -/
theorem engine_determinism_witness :
    analyzeTable "demo" [] tc3 = analyzeTable "demo" [] tc3 :=
  engine_determinism "demo" [] tc3 _ _ rfl rfl

/-! ## C5: empty-dataset error (spec 7 and 8) -/

/-- C5: the engine raises EmptyDatasetError exactly when the table has zero
columns or zero records; the error value carries no report (so no partial
report can be produced), and every structurally analyzable table yields a
full report rather than an error. -/
theorem empty_dataset_error (name : String) (excluded : List String)
    (t : Table) :
    ((t.columns = [] ∨ t.records = []) →
      analyzeTable name excluded t = .error .emptyDataset) ∧
    (t.columns ≠ [] → t.records ≠ [] →
      ∃ r, analyzeTable name excluded t = .ok r) := by
  constructor
  · intro h
    have hcond : (t.columns.isEmpty || t.records.isEmpty) = true := by
      rcases h with h | h <;> simp [h]
    unfold analyzeTable
    rw [if_pos hcond]
  · intro hc hr
    have hcond : (t.columns.isEmpty || t.records.isEmpty) = false := by
      simp [hc, hr]
    unfold analyzeTable
    rw [if_neg (by simp [hcond])]
    exact ⟨_, rfl⟩

/-- Witness for C5: a table with no records errors out, and the
worked-example table yields a report. -/
theorem empty_dataset_error_witness :
    analyzeTable "empty" [] { columns := ["v"], records := [] }
      = .error .emptyDataset ∧
    ∃ r, analyzeTable "demo" [] tc3 = .ok r :=
  ⟨(empty_dataset_error "empty" [] { columns := ["v"], records := [] }).1
      (Or.inr rfl),
   (empty_dataset_error "demo" [] tc3).2 (by simp [tc3]) (by simp [tc3])⟩
